import Mathlib

/-!
Verification development for the exchange-rate dashboard (`src/app.py`).

The program loads a fixed CSV of exchange-rate series (wide layout: one row
per (currency, measure) series, one column per month), melts it to long
layout, strips comma thousands separators, coerces rates to numbers, drops
rows with missing rates, parses the `%Y/%m` period headers, drops rows whose
period fails to parse, and sorts ascending by period.  The main script then
filters by a selected currency and selected measures and renders a chart plus
most-recent / min / max summary metrics.

Cells are modelled as strings (a blank CSV cell is the empty string), rates
as rationals.  The shallow embedding below follows `src/app.py` line by line.
-/

namespace ExchangeRates

/-! ### Character-level string helpers (executable models of the Python
string operations used by the app) -/

/-- Numeric value of a digit string (used only under an all-digits guard). -/
def digitsVal (l : List Char) : Nat :=
  l.foldl (fun n c => n * 10 + (c.toNat - 48)) 0

/-- Split a character list on a separator character; models Python's
`str.split(sep)` (and the separator handling of `strptime`). -/
def splitOnChar (sep : Char) : List Char → List (List Char)
  | [] => [[]]
  | c :: cs =>
    if c == sep then
      [] :: splitOnChar sep cs
    else
      match splitOnChar sep cs with
      | [] => [[c]]
      | g :: gs => (c :: g) :: gs

/-- Whitespace test for trimming, as pandas' numeric parser strips blanks. -/
def isSpaceChar (c : Char) : Bool :=
  c == ' ' || c == '\t' || c == '\n' || c == '\r'

/-- Trim leading and trailing whitespace. -/
def trimChars (l : List Char) : List Char :=
  ((l.dropWhile isSpaceChar).reverse.dropWhile isSpaceChar).reverse

/-- Model of `df_melted['환율'].str.replace(',', '')` on one cell: remove
every comma thousands separator. -/
def stripCommas (s : String) : String :=
  ⟨s.data.filter (fun c => !(c == ','))⟩

/-- Model of `pd.to_numeric(_, errors='coerce')` on one cell string: an
optional sign, then digits with at most one decimal point (at least one digit
overall) parse to a rational; everything else — in particular a blank cell —
coerces to a missing value (`none`). -/
def parseNumeric (s : String) : Option ℚ :=
  let l := trimChars s.data
  let sign : ℚ := if l.head? = some '-' then -1 else 1
  let body := match l with
    | '-' :: rest => rest
    | '+' :: rest => rest
    | other => other
  match splitOnChar '.' body with
  | [ip] =>
      if !ip.isEmpty && ip.all Char.isDigit then
        some (sign * (digitsVal ip : ℚ))
      else none
  | [ip, fp] =>
      if (!ip.isEmpty || !fp.isEmpty) && ip.all Char.isDigit && fp.all Char.isDigit then
        some (sign * ((digitsVal ip : ℚ) + (digitsVal fp : ℚ) / (10 ^ fp.length)))
      else none
  | _ => none

/-- Model of `pd.to_datetime(_, format='%Y/%m', errors='coerce')` on one
period string: exactly `year/month` with a 1–4 digit year, a 1–2 digit month
between 1 and 12, and nothing else; any other shape coerces to missing. -/
def parseYM (s : String) : Option (Nat × Nat) :=
  match splitOnChar '/' s.data with
  | [y, m] =>
      if !y.isEmpty && y.length ≤ 4 && y.all Char.isDigit &&
         !m.isEmpty && m.length ≤ 2 && m.all Char.isDigit &&
         decide (1 ≤ digitsVal m) && decide (digitsVal m ≤ 12) then
        some (digitsVal y, digitsVal m)
      else none
  | _ => none

/-! ### The raw CSV table and the melt (wide → long) step -/

/-- The raw CSV table as read by `pd.read_csv`: a header row and data rows,
each data row aligned positionally with the header.  A blank cell is the
empty string. -/
structure RawTable where
  columns : List String
  rows : List (List String)
deriving DecidableEq, Repr

/-- The cell of a raw row under a named column (empty when absent). -/
def cellOf (cols : List String) (row : List String) (c : String) : String :=
  match cols.indexOf? c with
  | some i => row.getD i ""
  | none => ""

/-- Source: `possible_ids = ['통계표', '계정항목', '측정항목', '단위', '변환']` (app.py:43). -/
def possible_ids : List String := ["통계표", "계정항목", "측정항목", "단위", "변환"]

/-- Source: `id_vars = [col for col in possible_ids if col in df.columns]` (app.py:44). -/
def id_vars (t : RawTable) : List String :=
  possible_ids.filter (fun c => t.columns.contains c)

/-- Source: `date_cols = [col for col in df.columns if col not in id_vars]` (app.py:45). -/
def date_cols (t : RawTable) : List String :=
  t.columns.filter (fun c => !((id_vars t).contains c))

/-- One row of the melted (long-format) frame, before cleaning: the id-column
values carried through, the `날짜` (period) column header and the raw `환율`
(rate) cell string. -/
structure MeltRow where
  ids : List (String × String)
  date : String
  rateRaw : String
deriving DecidableEq, Repr

/-- The id-column values of a raw row, in `id_vars` order. -/
def idsOf (t : RawTable) (row : List String) : List (String × String) :=
  (id_vars t).map (fun c => (c, cellOf t.columns row c))

/-- The melt row produced for raw row `row` under date column `c`. -/
def mkMeltRow (t : RawTable) (c : String) (row : List String) : MeltRow :=
  { ids := idsOf t row, date := c, rateRaw := cellOf t.columns row c }

/-- Model of `df.melt(id_vars=id_vars, value_vars=date_cols, var_name='날짜',
value_name='환율')` (app.py:47-52): for each date column in order, one output
row per input row in order. -/
def melt (t : RawTable) : List MeltRow :=
  (date_cols t).flatMap (fun c => t.rows.map (mkMeltRow t c))

/-! ### Cleaning, date parsing and sorting -/

/-- One row of the cleaned long-format table: id values, the period string
`날짜`, the numeric rate `환율` and the parsed period `날짜_dt` as
(year, month). -/
structure Observation where
  ids : List (String × String)
  date : String
  rate : ℚ
  dateKey : Nat × Nat
deriving DecidableEq, Repr

/-- The cleaning of one melt row (app.py:56-67): strip commas from the rate,
coerce to numeric, drop when missing; parse the period under `%Y/%m`, drop
when it fails. -/
def cleanRow (m : MeltRow) : Option Observation :=
  match parseNumeric (stripCommas m.rateRaw), parseYM m.date with
  | some q, some ym => some { ids := m.ids, date := m.date, rate := q, dateKey := ym }
  | _, _ => none

/-- Total order key on parsed periods: months since year 0 (faithful to
datetime order because parsed months lie in 1..12). -/
def keyOf (o : Observation) : Nat := o.dateKey.1 * 12 + o.dateKey.2

/-- Comparison used to model `sort_values('날짜_dt')` (app.py:68). -/
def obsLe (a b : Observation) : Prop := keyOf a ≤ keyOf b

instance : DecidableRel obsLe := fun a b => Nat.decLe (keyOf a) (keyOf b)

instance : IsTotal Observation obsLe := ⟨fun a b => Nat.le_total (keyOf a) (keyOf b)⟩

instance : IsTrans Observation obsLe := ⟨fun _ _ _ => Nat.le_trans⟩

/-- The preprocessing pipeline of `load_and_preprocess_data` applied to a
successfully read table (app.py:43-70): melt, clean, drop missing, sort by
parsed period ascending. -/
def load_and_preprocess_data (t : RawTable) : List Observation :=
  ((melt t).filterMap cleanRow).insertionSort obsLe

/-! ### File reading: encodings loop and failure modes (app.py:22-40) -/

/-- The fixed input path (app.py:22). -/
def file_name : String := "주요국 통화의 대원화환율_16153917.csv"

/-- Source: `encodings = ['utf-8', 'cp949', 'euc-kr']` (app.py:25). -/
def encodings : List String := ["utf-8", "cp949", "euc-kr"]

/-- Outcome of one `pd.read_csv(file_name, encoding=enc)` attempt. -/
inductive ReadOutcome where
  | ok (t : RawTable)
  | unicodeDecodeError
  | fileNotFoundError
deriving DecidableEq

/-- Result of the `for enc in encodings` loop (app.py:28-35): either `df`
was assigned and the loop broke, or the `FileNotFoundError` handler returned
`None` early, or every attempt raised `UnicodeDecodeError` and `df` stayed
`None`. -/
inductive LoopResult where
  | gotDf (t : RawTable)
  | earlyReturnNone
  | exhausted
deriving DecidableEq

/-- The encodings loop itself, over a read environment `read` giving the
outcome of each attempted encoding. -/
def readLoop (read : String → ReadOutcome) : List String → LoopResult
  | [] => .exhausted
  | e :: rest =>
    match read e with
    | .ok t => .gotDf t
    | .unicodeDecodeError => readLoop read rest
    | .fileNotFoundError => .earlyReturnNone

/-- What `load_and_preprocess_data` returns and displays: the resulting
table (`none` models Python `None`) and the `st.error` / `st.warning`
message texts it emits. -/
structure LoadOutput where
  result : Option (List Observation)
  messages : List String
deriving DecidableEq, Repr

/-- Full model of `load_and_preprocess_data` (app.py:21-70) including the
read loop: on a successful read the pipeline output is returned with no
message; on `FileNotFoundError` the function returns `None` from inside the
handler, emitting no message; only when every encoding fails to decode does
it reach the `st.error`/`st.warning` lines before returning `None`. -/
def load (read : String → ReadOutcome) : LoadOutput :=
  match readLoop read encodings with
  | .gotDf t => { result := some (load_and_preprocess_data t), messages := [] }
  | .earlyReturnNone => { result := none, messages := [] }
  | .exhausted =>
      { result := none
        messages := ["❌ 파일을 찾을 수 없습니다: " ++ file_name,
                     "같은 폴더에 csv 파일이 있는지 확인해주세요."] }

/-- The fallback branch of the main script (app.py:152-155): when `df` is
`None` nothing is rendered; when `df` is an empty table a warning is shown. -/
def mainFallbackMessages : Option (List Observation) → List String
  | none => []
  | some obs => if obs.isEmpty then ["표시할 데이터가 없습니다."] else []

/-! ### Selection, filtering and display (app.py:77-150) -/

/-- The value of an id column in a long-format row, as `row[c]` would give
it: the first id entry carrying that column name. -/
def lookupKey (ids : List (String × String)) (c : String) : Option String :=
  (ids.find? (fun p => p.1 == c)).map (fun p => p.2)

/-- Model of `df['계정항목']` on one long-format row (the currency name). -/
def currencyOf (o : Observation) : Option String := lookupKey o.ids "계정항목"

/-- Model of `df['측정항목']` on one long-format row (the measurement basis). -/
def measureOf (o : Observation) : Option String := lookupKey o.ids "측정항목"

/-- First-occurrence deduplication (worker): keep an element when it has not
been seen yet. -/
def uniqueFirstAux (seen : List String) : List String → List String
  | [] => []
  | a :: l =>
    if seen.contains a then uniqueFirstAux seen l
    else a :: uniqueFirstAux (a :: seen) l

/-- First-occurrence deduplication, the order `pandas.Series.unique` keeps. -/
def uniqueFirst (l : List String) : List String := uniqueFirstAux [] l

/-- Source: `currency_list = df['계정항목'].unique()` (app.py:83). -/
def currency_list (obs : List Observation) : List String :=
  uniqueFirst (obs.filterMap currencyOf)

/-- Whether a currency name contains the default marker `'미국달러'`
(the `'미국달러' in str(c)` test of app.py:86). -/
def hasMarker (c : String) : Bool :=
  let needle := "미국달러".data
  (List.range (c.data.length + 1)).any (fun i => (c.data.drop i).take needle.length == needle)

/-- Source: `default_currency = [c for c in currency_list if '미국달러' in str(c)]`
(app.py:86). -/
def default_currency (cl : List String) : List String := cl.filter hasMarker

/-- Source: `default_index = list(currency_list).index(default_currency[0]) if
default_currency else 0` (app.py:87). -/
def default_index (cl : List String) : Nat :=
  match default_currency cl with
  | [] => 0
  | d :: _ => cl.indexOf d

/-- The entry the currency selectbox starts on: the element of the list at
`default_index` (app.py:89-93). -/
def defaultSelection (cl : List String) : Option String :=
  cl[default_index cl]?

/-- Model of `df['측정항목'].isin(selected_measure)` on one row. -/
def measureOk (selMeas : List String) (o : Observation) : Bool :=
  match measureOf o with
  | some m => selMeas.contains m
  | none => false

/-- The mask and filtering of app.py:106-111: rows whose currency equals the
selection; the measure condition is conjoined only when the measure
selection is non-empty (`if selected_measure:`). -/
def filteredObs (obs : List Observation) (selCur : String) (selMeas : List String) :
    List Observation :=
  obs.filter (fun o => (currencyOf o == some selCur) &&
    (selMeas.isEmpty || measureOk selMeas o))

/-- What the visualisation section renders (app.py:114-150): a chart of the
filtered rows when non-empty, otherwise the "no data for this selection"
warning. -/
inductive RenderOutput where
  | chart (rows : List Observation)
  | noData (msg : String)
deriving DecidableEq, Repr

/-- Source: `if not filtered_df.empty: ...plotly chart... else: st.warning(...)`. -/
def renderFiltered (f : List Observation) : RenderOutput :=
  if f.isEmpty then .noData "선택한 조건에 맞는 데이터가 없습니다." else .chart f

/-- The rate column of the filtered frame. -/
def rates (f : List Observation) : List ℚ := f.map (fun o => o.rate)

/-- Model of `filtered_df.iloc[-1]` guarded by non-emptiness: the last row. -/
def recentRow (f : List Observation) : Option Observation := f.getLast?

/-- The "최근 환율" (most recent) metric: the rate of the last row (app.py:130,134). -/
def recentRate (f : List Observation) : Option ℚ :=
  (recentRow f).map (fun o => o.rate)

/-- Model of `filtered_df['환율'].min()` (app.py:136), as the fold pandas computes. -/
def seriesMin : List ℚ → Option ℚ
  | [] => none
  | x :: xs => some (xs.foldl min x)

/-- Model of `filtered_df['환율'].max()` (app.py:138), as the fold pandas computes. -/
def seriesMax : List ℚ → Option ℚ
  | [] => none
  | x :: xs => some (xs.foldl max x)

/-! ### The unguarded mask (app.py:82-111) -/

/-- An unhandled Python exception escaping the main script. -/
inductive PyError where
  | keyError (col : String)
  | nameError (v : String)
deriving DecidableEq, Repr

/-- The columns of the long-format frame `df` inside the main script: the
id columns carried through the melt plus `날짜`, `환율` and `날짜_dt`. -/
def dfColumns (t : RawTable) : List String :=
  id_vars t ++ ["날짜", "환율", "날짜_dt"]

/-- The selection-and-filtering step of the main script (app.py:82-111):
`selected_currency` is assigned only under the `'계정항목' in df.columns`
guard, yet `mask = (df['계정항목'] == selected_currency)` runs
unconditionally — when the column is absent, evaluating `df['계정항목']`
raises an unhandled `KeyError` (and the mask also references the
never-assigned `selected_currency`). -/
def selectionAndFilter (t : RawTable) (obs : List Observation)
    (selCur : String) (selMeas : List String) : Except PyError (List Observation) :=
  if (dfColumns t).contains "계정항목" then
    Except.ok (filteredObs obs selCur selMeas)
  else
    Except.error (PyError.keyError "계정항목")

/-! ### Helper lemmas about the pipeline -/

theorem cleanRow_eq_some {m : MeltRow} {o : Observation} :
    cleanRow m = some o ↔
      parseNumeric (stripCommas m.rateRaw) = some o.rate ∧
      parseYM m.date = some o.dateKey ∧ o.ids = m.ids ∧ o.date = m.date := by
  cases o with
  | mk ids date rate dateKey =>
    unfold cleanRow
    cases h1 : parseNumeric (stripCommas m.rateRaw) <;>
      cases h2 : parseYM m.date <;>
        (first
          | (simp_all [Observation.mk.injEq]; aesop)
          | simp_all [Observation.mk.injEq])

theorem cleanRow_isSome {m : MeltRow} :
    (cleanRow m).isSome ↔
      (parseNumeric (stripCommas m.rateRaw)).isSome ∧ (parseYM m.date).isSome := by
  unfold cleanRow
  cases h1 : parseNumeric (stripCommas m.rateRaw) <;> cases h2 : parseYM m.date <;> simp

theorem mem_melt {t : RawTable} {m : MeltRow} :
    m ∈ melt t ↔ ∃ c ∈ date_cols t, ∃ r ∈ t.rows, m = mkMeltRow t c r := by
  simp only [melt, List.mem_flatMap, List.mem_map]
  constructor
  · rintro ⟨c, hc, r, hr, rfl⟩
    exact ⟨c, hc, r, hr, rfl⟩
  · rintro ⟨c, hc, r, hr, rfl⟩
    exact ⟨c, hc, r, hr, rfl⟩

theorem load_perm (t : RawTable) :
    (load_and_preprocess_data t).Perm ((melt t).filterMap cleanRow) :=
  List.perm_insertionSort _ _

theorem mem_load {t : RawTable} {o : Observation} :
    o ∈ load_and_preprocess_data t ↔ ∃ m ∈ melt t, cleanRow m = some o := by
  rw [(load_perm t).mem_iff, List.mem_filterMap]

theorem load_sorted (t : RawTable) : (load_and_preprocess_data t).Pairwise obsLe :=
  List.sorted_insertionSort _ _

theorem find?_beq_self {l : List String} {c : String} (h : c ∈ l) :
    l.find? (fun x => x == c) = some c := by
  induction l with
  | nil => cases h
  | cons a l ih =>
    rw [List.find?_cons]
    by_cases hac : a = c
    · subst hac; simp
    · have hb : (a == c) = false := by simpa using hac
      rw [hb]
      exact ih (by rcases List.mem_cons.1 h with h' | h' <;> [exact absurd h'.symm hac; exact h'])

theorem lookupKey_idsOf (t : RawTable) (r : List String) (c : String) (hc : c ∈ id_vars t) :
    lookupKey (idsOf t r) c = some (cellOf t.columns r c) := by
  unfold lookupKey idsOf
  rw [List.find?_map]
  have hcomp : ((fun p : String × String => p.1 == c) ∘
      (fun c' => (c', cellOf t.columns r c'))) = fun c' => c' == c := rfl
  rw [hcomp, find?_beq_self hc]
  rfl

theorem mem_id_vars {t : RawTable} {c : String} :
    c ∈ id_vars t ↔ c ∈ possible_ids ∧ c ∈ t.columns := by
  simp [id_vars, List.mem_filter, List.contains_iff_exists_mem_beq]

theorem contains_iff_mem {l : List String} {a : String} : l.contains a = true ↔ a ∈ l := by
  simp [List.contains_iff_exists_mem_beq]

theorem readLoop_first_success (read : String → ReadOutcome) (pre post : List String)
    (e : String) (t : RawTable) (hpre : ∀ x ∈ pre, read x = .unicodeDecodeError)
    (he : read e = .ok t) : readLoop read (pre ++ e :: post) = .gotDf t := by
  induction pre with
  | nil => simp [readLoop, he]
  | cons a l ih =>
    rw [List.cons_append]
    show readLoop read (a :: (l ++ e :: post)) = _
    rw [readLoop, hpre a (List.mem_cons_self a l)]
    exact ih (fun x hx => hpre x (List.mem_cons_of_mem a hx))

theorem readLoop_all_decode_fail (read : String → ReadOutcome) (es : List String)
    (h : ∀ e ∈ es, read e = .unicodeDecodeError) : readLoop read es = .exhausted := by
  induction es with
  | nil => rfl
  | cons a l ih =>
    rw [readLoop, h a (List.mem_cons_self a l)]
    exact ih (fun x hx => h x (List.mem_cons_of_mem a hx))

theorem measureOk_iff {selMeas : List String} {o : Observation} :
    measureOk selMeas o = true ↔ ∃ m, measureOf o = some m ∧ m ∈ selMeas := by
  unfold measureOk
  cases h : measureOf o <;> simp [contains_iff_mem]

theorem head?_filter_eq_find? {α : Type} (p : α → Bool) (l : List α) :
    (l.filter p).head? = l.find? p := by
  induction l with
  | nil => rfl
  | cons a l ih =>
    rw [List.filter_cons, List.find?_cons]
    cases h : p a <;> simp [ih]

theorem currencyCol_dfColumns (t : RawTable) :
    "계정항목" ∈ dfColumns t ↔ "계정항목" ∈ t.columns := by
  have h1 : "계정항목" ∈ possible_ids := by decide
  have h2 : "계정항목" ∉ (["날짜", "환율", "날짜_dt"] : List String) := by decide
  simp [dfColumns, List.mem_append, mem_id_vars, h1, h2]

/-! ### Claim theorems -/

/-- C1 (code bug, documented): when the fixed input file is missing, every
`pd.read_csv` attempt raises `FileNotFoundError`, so the first iteration of
the encodings loop returns `None` from inside the handler, before the
`st.error`/`st.warning` lines; and since `df is None`, the main script's
fallback branch also prints nothing.  The load is terminal and no data is
shown, but — contrary to the claimed user-visible message — nothing at all
is displayed. -/
theorem fileNotFound_is_silent :
    (load (fun _ => ReadOutcome.fileNotFoundError)).result = none ∧
    (load (fun _ => ReadOutcome.fileNotFoundError)).messages = [] ∧
    mainFallbackMessages (load (fun _ => ReadOutcome.fileNotFoundError)).result = [] :=
  ⟨rfl, rfl, rfl⟩

/-- C8: `load` tries the fixed encoding list `['utf-8', 'cp949', 'euc-kr']`
(UTF-8 first, then two legacy East-Asian encodings) in order and stops at the
first read that decodes; when every candidate raises a decode error it
returns the terminal `None` together with a user-visible message. -/
theorem load_encoding_order_and_decode_failure :
    encodings = ["utf-8", "cp949", "euc-kr"] ∧
    (∀ read : String → ReadOutcome, ∀ t : RawTable, read "utf-8" = .ok t →
        (load read).result = some (load_and_preprocess_data t)) ∧
    (∀ read : String → ReadOutcome, ∀ t : RawTable,
        read "utf-8" = .unicodeDecodeError → read "cp949" = .ok t →
        (load read).result = some (load_and_preprocess_data t)) ∧
    (∀ read : String → ReadOutcome, ∀ t : RawTable,
        read "utf-8" = .unicodeDecodeError → read "cp949" = .unicodeDecodeError →
        read "euc-kr" = .ok t →
        (load read).result = some (load_and_preprocess_data t)) ∧
    (∀ read : String → ReadOutcome, (∀ e ∈ encodings, read e = .unicodeDecodeError) →
        (load read).result = none ∧ (load read).messages ≠ []) := by
  refine ⟨rfl, ?_, ?_, ?_, ?_⟩
  · intro read t h1
    have : readLoop read encodings = .gotDf t :=
      readLoop_first_success read [] ["cp949", "euc-kr"] "utf-8" t (by simp) h1
    simp [load, this]
  · intro read t h1 h2
    have : readLoop read encodings = .gotDf t :=
      readLoop_first_success read ["utf-8"] ["euc-kr"] "cp949" t (by simpa using h1) h2
    simp [load, this]
  · intro read t h1 h2 h3
    have : readLoop read encodings = .gotDf t :=
      readLoop_first_success read ["utf-8", "cp949"] [] "euc-kr" t
        (by
          intro x hx
          simp only [List.mem_cons, List.not_mem_nil, or_false] at hx
          rcases hx with rfl | rfl
          · exact h1
          · exact h2) h3
    simp [load, this]
  · intro read h
    have : readLoop read encodings = .exhausted := readLoop_all_decode_fail read _ h
    simp [load, this]

/-- C7: filtering keeps exactly the observations whose currency equals the
selected currency and — only when the measure selection is non-empty — whose
measure is among the selected measures; an empty measure selection applies no
measure filter at all; and an empty filtered set renders the "no data" notice
while a non-empty one renders the chart. -/
theorem filtering_and_empty_selection (obs : List Observation) (selCur : String)
    (selMeas : List String) :
    (∀ o, o ∈ filteredObs obs selCur selMeas ↔
        o ∈ obs ∧ currencyOf o = some selCur ∧
          (selMeas ≠ [] → ∃ m, measureOf o = some m ∧ m ∈ selMeas)) ∧
    (filteredObs obs selCur selMeas = [] →
        renderFiltered (filteredObs obs selCur selMeas) =
          RenderOutput.noData "선택한 조건에 맞는 데이터가 없습니다.") ∧
    (∀ f : List Observation, f ≠ [] →
        renderFiltered f = RenderOutput.chart f) := by
  refine ⟨?_, ?_, ?_⟩
  · intro o
    rw [filteredObs, List.mem_filter, Bool.and_eq_true, Bool.or_eq_true]
    by_cases hm : selMeas = []
    · subst hm; simp
    · simp [hm, List.isEmpty_iff, measureOk_iff]
  · intro h
    rw [h]
    rfl
  · intro f hf
    simp [renderFiltered, List.isEmpty_iff, hf]

/-- C9: the currency selectbox defaults to the first enumerated entry whose
name contains the `'미국달러'` (US Dollar) marker, and to the first entry of
the list when no entry contains the marker. -/
theorem default_currency_selection (obs : List Observation) :
    (∀ d, (currency_list obs).find? hasMarker = some d →
        defaultSelection (currency_list obs) = some d) ∧
    ((currency_list obs).find? hasMarker = none →
        defaultSelection (currency_list obs) = (currency_list obs).head?) := by
  set cl := currency_list obs with hcl
  constructor
  · intro d hd
    have hmem : d ∈ cl := List.mem_of_find?_eq_some hd
    have hfil : default_currency cl ≠ [] := by
      intro h0
      rw [← head?_filter_eq_find?] at hd
      rw [default_currency] at h0
      rw [h0] at hd
      cases hd
    have hidx : default_index cl = cl.indexOf d := by
      rw [default_index]
      cases h0 : default_currency cl with
      | nil => exact absurd h0 hfil
      | cons d' rest =>
        have : (default_currency cl).head? = some d' := by rw [h0]; rfl
        rw [default_currency, head?_filter_eq_find?, hd] at this
        cases this
        rfl
    rw [defaultSelection, hidx,
      List.getElem?_eq_getElem (List.indexOf_lt_length.2 hmem),
      List.getElem_indexOf]
  · intro hnone
    have hfil : default_currency cl = [] := by
      rw [← List.head?_eq_none_iff, default_currency, head?_filter_eq_find?, hnone]
    rw [defaultSelection, default_index, hfil, List.head?_eq_getElem?]

/-- C10: the selection-and-filtering step of the main script completes
without an unhandled error exactly when the currency column `'계정항목'` is
present among the loaded table's columns; when it is absent the step raises
an unhandled error (no specified failure mode). -/
theorem mask_requires_currency_column (t : RawTable) (obs : List Observation)
    (selCur : String) (selMeas : List String) :
    ((∃ f, selectionAndFilter t obs selCur selMeas = Except.ok f) ↔
        "계정항목" ∈ t.columns) ∧
    ("계정항목" ∉ t.columns →
        selectionAndFilter t obs selCur selMeas =
          Except.error (PyError.keyError "계정항목")) := by
  constructor
  · constructor
    · rintro ⟨f, hf⟩
      rw [selectionAndFilter] at hf
      by_cases h : (dfColumns t).contains "계정항목" = true
      · exact (currencyCol_dfColumns t).1 (contains_iff_mem.1 h)
      · rw [if_neg h] at hf
        cases hf
    · intro h
      have : (dfColumns t).contains "계정항목" = true :=
        contains_iff_mem.2 ((currencyCol_dfColumns t).2 h)
      exact ⟨_, by rw [selectionAndFilter, if_pos this]⟩
  · intro h
    have : ¬((dfColumns t).contains "계정항목" = true) := by
      intro hc
      exact h ((currencyCol_dfColumns t).1 (contains_iff_mem.1 hc))
    rw [selectionAndFilter, if_neg this]

/-! ### Further helper lemmas: parsing bounds, counting, dedup, folds -/

theorem parseYM_month_bounds {s : String} {ym : Nat × Nat} (h : parseYM s = some ym) :
    1 ≤ ym.2 ∧ ym.2 ≤ 12 := by
  unfold parseYM at h
  rcases hsp : splitOnChar '/' s.data with _ | ⟨y, _ | ⟨m, _ | _⟩⟩ <;> simp only [hsp] at h
  · cases h
  · cases h
  · split at h
    · next hg =>
      cases h
      simp only [Bool.and_eq_true, decide_eq_true_eq] at hg
      exact ⟨hg.1.2, hg.2⟩
    · cases h
  · cases h

theorem countP_filterMap {α β : Type} (f : α → Option β) (p : β → Bool) (l : List α) :
    (l.filterMap f).countP p = l.countP (fun a => ((f a).map p).getD false) := by
  induction l with
  | nil => rfl
  | cons a l ih =>
    rw [List.filterMap_cons, List.countP_cons]
    cases h : f a <;> simp [List.countP_cons, ih, h]

theorem countP_flatMap {α β : Type} (l : List α) (f : α → List β) (p : β → Bool) :
    (l.flatMap f).countP p = (l.map (fun a => (f a).countP p)).sum := by
  induction l with
  | nil => rfl
  | cons a l ih => rw [List.flatMap_cons, List.countP_append, List.map_cons, List.sum_cons, ih]

theorem sum_map_ite_eq_countP {α : Type} (l : List α) (p : α → Bool) :
    (l.map (fun a => if p a then 1 else 0)).sum = l.countP p := by
  induction l with
  | nil => rfl
  | cons a l ih =>
    rw [List.map_cons, List.sum_cons, List.countP_cons, ih]
    cases h : p a <;> (simp [h]; try omega)

theorem mem_uniqueFirstAux {x : String} {l seen : List String} :
    x ∈ uniqueFirstAux seen l ↔ x ∈ l ∧ x ∉ seen := by
  induction l generalizing seen with
  | nil => simp [uniqueFirstAux]
  | cons a l ih =>
    rw [uniqueFirstAux]
    by_cases ha : a ∈ seen
    · rw [if_pos (contains_iff_mem.2 ha), ih]
      constructor
      · exact fun ⟨h1, h2⟩ => ⟨List.mem_cons_of_mem a h1, h2⟩
      · rintro ⟨h1, h2⟩
        rcases List.mem_cons.1 h1 with rfl | h1
        · exact absurd ha h2
        · exact ⟨h1, h2⟩
    · have : ¬(seen.contains a = true) := fun hc => ha (contains_iff_mem.1 hc)
      rw [if_neg this, List.mem_cons, ih]
      constructor
      · rintro (rfl | ⟨h1, h2⟩)
        · exact ⟨List.mem_cons_self x l, ha⟩
        · refine ⟨List.mem_cons_of_mem a h1, fun hx => h2 (List.mem_cons_of_mem a hx)⟩
      · rintro ⟨h1, h2⟩
        rcases List.mem_cons.1 h1 with rfl | h1
        · exact Or.inl rfl
        · by_cases hxa : x = a
          · exact Or.inl hxa
          · refine Or.inr ⟨h1, fun hx => ?_⟩
            rcases List.mem_cons.1 hx with h' | h'
            · exact hxa h'
            · exact h2 h'

theorem mem_uniqueFirst {x : String} {l : List String} : x ∈ uniqueFirst l ↔ x ∈ l := by
  rw [uniqueFirst, mem_uniqueFirstAux]
  simp

theorem mem_currency_list {cur : String} {obs : List Observation} :
    cur ∈ currency_list obs ↔ ∃ o ∈ obs, currencyOf o = some cur := by
  rw [currency_list, mem_uniqueFirst, List.mem_filterMap]

theorem foldl_min_spec (xs : List ℚ) (a : ℚ) :
    (xs.foldl min a = a ∨ xs.foldl min a ∈ xs) ∧
    xs.foldl min a ≤ a ∧ ∀ y ∈ xs, xs.foldl min a ≤ y := by
  induction xs generalizing a with
  | nil => simp
  | cons x xs ih =>
    obtain ⟨hmem, hle, hall⟩ := ih (min a x)
    have hax : xs.foldl min (min a x) ≤ a := le_trans hle (min_le_left a x)
    have hxx : xs.foldl min (min a x) ≤ x := le_trans hle (min_le_right a x)
    refine ⟨?_, hax, ?_⟩
    · rcases hmem with h | h
      · rcases min_choice a x with hc | hc
        · exact Or.inl (by rw [List.foldl_cons, h, hc])
        · exact Or.inr (by rw [List.foldl_cons, h, hc]; exact List.mem_cons_self x xs)
      · exact Or.inr (List.mem_cons_of_mem x h)
    · intro y hy
      rcases List.mem_cons.1 hy with rfl | hy
      · exact hxx
      · exact hall y hy

theorem foldl_max_spec (xs : List ℚ) (a : ℚ) :
    (xs.foldl max a = a ∨ xs.foldl max a ∈ xs) ∧
    a ≤ xs.foldl max a ∧ ∀ y ∈ xs, y ≤ xs.foldl max a := by
  induction xs generalizing a with
  | nil => simp
  | cons x xs ih =>
    obtain ⟨hmem, hle, hall⟩ := ih (max a x)
    have hax : a ≤ xs.foldl max (max a x) := le_trans (le_max_left a x) hle
    have hxx : x ≤ xs.foldl max (max a x) := le_trans (le_max_right a x) hle
    refine ⟨?_, hax, ?_⟩
    · rcases hmem with h | h
      · rcases max_choice a x with hc | hc
        · exact Or.inl (by rw [List.foldl_cons, h, hc])
        · exact Or.inr (by rw [List.foldl_cons, h, hc]; exact List.mem_cons_self x xs)
      · exact Or.inr (List.mem_cons_of_mem x h)
    · intro y hy
      rcases List.mem_cons.1 hy with rfl | hy
      · exact hxx
      · exact hall y hy

theorem pairwise_getLast_le {l : List Observation} (hl : l ≠ [])
    (hp : l.Pairwise obsLe) : ∀ x ∈ l, keyOf x ≤ keyOf (l.getLast hl) := by
  induction l with
  | nil => exact absurd rfl hl
  | cons a l ih =>
    intro x hx
    cases l with
    | nil =>
      rcases List.mem_cons.1 hx with rfl | hx
      · exact le_refl _
      · cases hx
    | cons b l' =>
      have hne : (b :: l') ≠ [] := List.cons_ne_nil b l'
      rw [List.getLast_cons hne]
      rcases List.mem_cons.1 hx with rfl | hx
      · exact (List.pairwise_cons.1 hp).1 _ (List.getLast_mem hne)
      · exact ih hne (hp.of_cons) x hx

/-! ### Concrete sample data for witnesses -/

/-- A sample observation for the US-Dollar series. -/
def obsUSD : Observation :=
  { ids := [("계정항목", "원/미국달러")], date := "2024/01", rate := 1, dateKey := (2024, 1) }

/-- A sample observation for the Japanese-Yen series. -/
def obsJPY : Observation :=
  { ids := [("계정항목", "원/일본엔")], date := "2024/01", rate := 2, dateKey := (2024, 1) }

/-- Witness for C7 at a concrete empty selection. -/
theorem filtering_and_empty_selection_witness :
    renderFiltered (filteredObs [] "원/미국달러" []) =
      RenderOutput.noData "선택한 조건에 맞는 데이터가 없습니다." :=
  (filtering_and_empty_selection [] "원/미국달러" []).2.1 rfl

/-- Witness for C8 at a concrete all-encodings-fail environment. -/
theorem load_encoding_order_and_decode_failure_witness :
    (load (fun _ => ReadOutcome.unicodeDecodeError)).result = none ∧
    (load (fun _ => ReadOutcome.unicodeDecodeError)).messages ≠ [] :=
  load_encoding_order_and_decode_failure.2.2.2.2
    (fun _ => ReadOutcome.unicodeDecodeError) (fun _ _ => rfl)

/-- Witness for C9 at the currency list `["원/미국달러", "원/일본엔"]` of the
claim's scenario. -/
theorem default_currency_selection_witness :
    defaultSelection (currency_list [obsUSD, obsJPY]) = some "원/미국달러" :=
  (default_currency_selection [obsUSD, obsJPY]).1 "원/미국달러" (by decide)

/-- Witness for C10 at a concrete table without the `'계정항목'` column. -/
theorem mask_requires_currency_column_witness :
    selectionAndFilter { columns := ["측정항목"], rows := [] } [] "원/미국달러" [] =
      Except.error (PyError.keyError "계정항목") :=
  (mask_requires_currency_column { columns := ["측정항목"], rows := [] } [] "원/미국달러" []).2
    (by decide)

/-- The sample raw table of the spec's summary scenario: one US-Dollar series
with rates 1,200.50 / 1180.00 / 1250.75 over 2024/01–2024/03, plus a legacy
currency whose cells are all blank. -/
def sample : RawTable :=
  { columns := ["계정항목", "측정항목", "단위", "2024/01", "2024/02", "2024/03"]
  , rows := [ ["원/미국달러", "평균", "원", "1,200.50", "1180.00", "1250.75"]
            , ["원/독일마르크", "평균", "원", "", "", ""] ] }

/-- A raw table with a malformed month-column header. -/
def sampleBadDate : RawTable :=
  { columns := ["계정항목", "2024-01"], rows := [["원/미국달러", "5"]] }

/-- C4: every loaded observation's period string parses under the exact
`%Y/%m` pattern to its stored period date; a melted row whose period string
fails the pattern (such as "2024-01" or "Jan/2024") is dropped by the
cleaning step; and the loaded table is sorted ascending by parsed period. -/
theorem period_parse_and_sort (t : RawTable) :
    (∀ o ∈ load_and_preprocess_data t, parseYM o.date = some o.dateKey) ∧
    (∀ m ∈ melt t, parseYM m.date = none → cleanRow m = none) ∧
    (load_and_preprocess_data t).Pairwise
      (fun a b => a.dateKey.1 < b.dateKey.1 ∨
        (a.dateKey.1 = b.dateKey.1 ∧ a.dateKey.2 ≤ b.dateKey.2)) ∧
    parseYM "2024-01" = none ∧ parseYM "Jan/2024" = none := by
  have hparse : ∀ o ∈ load_and_preprocess_data t, parseYM o.date = some o.dateKey := by
    intro o ho
    obtain ⟨m, _, hclean⟩ := mem_load.1 ho
    obtain ⟨_, hym, _, hdate⟩ := cleanRow_eq_some.1 hclean
    rw [hdate]
    exact hym
  refine ⟨hparse, ?_, ?_, by decide, by decide⟩
  · intro m _ hym
    unfold cleanRow
    rw [hym]
    cases parseNumeric (stripCommas m.rateRaw) <;> rfl
  · refine (load_sorted t).imp_of_mem ?_
    intro a b ha hb hle
    have hma := parseYM_month_bounds (hparse a ha)
    have hmb := parseYM_month_bounds (hparse b hb)
    have hk : keyOf a ≤ keyOf b := hle
    unfold keyOf at hk
    rcases Nat.lt_or_ge a.dateKey.1 b.dateKey.1 with h | h
    · exact Or.inl h
    · right
      omega

/-- Witness for C4: the melted cell under the malformed header "2024-01" is
dropped. -/
theorem period_parse_and_sort_witness :
    cleanRow (mkMeltRow sampleBadDate "2024-01" ["원/미국달러", "5"]) = none :=
  (period_parse_and_sort sampleBadDate).2.1 _ (by decide) (by decide)

/-- C3: a melted cell whose month header is valid is retained exactly when
the cell string, after removing comma separators, parses as a number; every
loaded observation carries the parsed numeric rate of its originating cell;
every (row, month column) pair of the raw table produces its melted cell; and
a blank cell parses to missing. -/
theorem rate_parse_retention (t : RawTable) :
    (∀ m ∈ melt t, (parseYM m.date).isSome →
        ((cleanRow m).isSome ↔ (parseNumeric (stripCommas m.rateRaw)).isSome)) ∧
    (∀ o, o ∈ load_and_preprocess_data t ↔ ∃ m ∈ melt t, cleanRow m = some o) ∧
    (∀ m o, cleanRow m = some o →
        parseNumeric (stripCommas m.rateRaw) = some o.rate) ∧
    (∀ r ∈ t.rows, ∀ c ∈ date_cols t, mkMeltRow t c r ∈ melt t ∧
        (mkMeltRow t c r).rateRaw = cellOf t.columns r c) ∧
    parseNumeric "" = none := by
  refine ⟨?_, fun o => mem_load, ?_, ?_, by decide⟩
  · intro m _ hym
    rw [cleanRow_isSome]
    exact ⟨fun h => h.1, fun h => ⟨h, hym⟩⟩
  · intro m o h
    exact (cleanRow_eq_some.1 h).1
  · intro r hr c hc
    exact ⟨mem_melt.2 ⟨c, hc, r, hr, rfl⟩, rfl⟩

/-- Witness for C3 at the sample table's "1,200.50" cell under the valid
header 2024/01. -/
theorem rate_parse_retention_witness :
    (cleanRow (mkMeltRow sample "2024/01" ["원/미국달러", "평균", "원",
        "1,200.50", "1180.00", "1250.75"])).isSome ↔
    (parseNumeric (stripCommas (mkMeltRow sample "2024/01" ["원/미국달러", "평균", "원",
        "1,200.50", "1180.00", "1250.75"]).rateRaw)).isSome :=
  (rate_parse_retention sample).1 _ (by decide) (by decide)

/-- C5: when the currency and measure columns are present and the month
headers are valid, a (currency, measure) pair appears in the loaded table
exactly when some raw row carries that pair and has at least one month cell
that parses as a number after separator stripping; the enumerated currency
list contains exactly the currencies with such a row; hence a currency whose
every month cell fails to parse (e.g. is blank) is absent from the list. -/
theorem series_presence (t : RawTable)
    (hcur : "계정항목" ∈ t.columns) (hmea : "측정항목" ∈ t.columns)
    (hdates : ∀ c ∈ date_cols t, (parseYM c).isSome) :
    (∀ cur mea,
      (∃ o ∈ load_and_preprocess_data t,
          currencyOf o = some cur ∧ measureOf o = some mea) ↔
      (∃ r ∈ t.rows, cellOf t.columns r "계정항목" = cur ∧
          cellOf t.columns r "측정항목" = mea ∧
          ∃ c ∈ date_cols t,
            (parseNumeric (stripCommas (cellOf t.columns r c))).isSome)) ∧
    (∀ cur, cur ∈ currency_list (load_and_preprocess_data t) ↔
      ∃ r ∈ t.rows, cellOf t.columns r "계정항목" = cur ∧
        ∃ c ∈ date_cols t,
          (parseNumeric (stripCommas (cellOf t.columns r c))).isSome) ∧
    (∀ cur,
      (∀ r ∈ t.rows, cellOf t.columns r "계정항목" = cur →
          ∀ c ∈ date_cols t, parseNumeric (stripCommas (cellOf t.columns r c)) = none) →
      cur ∉ currency_list (load_and_preprocess_data t)) := by
  have hcuriv : "계정항목" ∈ id_vars t := mem_id_vars.2 ⟨by decide, hcur⟩
  have hmeaiv : "측정항목" ∈ id_vars t := mem_id_vars.2 ⟨by decide, hmea⟩
  have fwd : ∀ o ∈ load_and_preprocess_data t, ∃ r ∈ t.rows, o.ids = idsOf t r ∧
      ∃ c ∈ date_cols t,
        parseNumeric (stripCommas (cellOf t.columns r c)) = some o.rate := by
    intro o ho
    obtain ⟨m, hm, hclean⟩ := mem_load.1 ho
    obtain ⟨c, hc, r, hr, rfl⟩ := mem_melt.1 hm
    obtain ⟨hq, _, hids, _⟩ := cleanRow_eq_some.1 hclean
    exact ⟨r, hr, hids, c, hc, hq⟩
  have bwd : ∀ r ∈ t.rows, ∀ c ∈ date_cols t,
      (parseNumeric (stripCommas (cellOf t.columns r c))).isSome →
      ∃ o ∈ load_and_preprocess_data t, o.ids = idsOf t r := by
    intro r hr c hc hsome
    obtain ⟨q, hq⟩ := Option.isSome_iff_exists.1 hsome
    obtain ⟨ym, hym⟩ := Option.isSome_iff_exists.1 (hdates c hc)
    refine ⟨⟨idsOf t r, c, q, ym⟩,
      mem_load.2 ⟨mkMeltRow t c r, mem_melt.2 ⟨c, hc, r, hr, rfl⟩, ?_⟩, rfl⟩
    unfold cleanRow mkMeltRow
    simp only [hq, hym]
  have hlist : ∀ cur, cur ∈ currency_list (load_and_preprocess_data t) ↔
      ∃ r ∈ t.rows, cellOf t.columns r "계정항목" = cur ∧
        ∃ c ∈ date_cols t,
          (parseNumeric (stripCommas (cellOf t.columns r c))).isSome := by
    intro cur
    rw [mem_currency_list]
    constructor
    · rintro ⟨o, ho, hoc⟩
      obtain ⟨r, hr, hids, c, hc, hq⟩ := fwd o ho
      rw [currencyOf, hids, lookupKey_idsOf t r _ hcuriv] at hoc
      exact ⟨r, hr, Option.some.inj hoc, c, hc, by rw [hq]; rfl⟩
    · rintro ⟨r, hr, hc1, c, hc, hsome⟩
      obtain ⟨o, ho, hids⟩ := bwd r hr c hc hsome
      exact ⟨o, ho, by rw [currencyOf, hids, lookupKey_idsOf t r _ hcuriv, hc1]⟩
  refine ⟨?_, hlist, ?_⟩
  · intro cur mea
    constructor
    · rintro ⟨o, ho, hoc, hom⟩
      obtain ⟨r, hr, hids, c, hc, hq⟩ := fwd o ho
      rw [currencyOf, hids, lookupKey_idsOf t r _ hcuriv] at hoc
      rw [measureOf, hids, lookupKey_idsOf t r _ hmeaiv] at hom
      exact ⟨r, hr, Option.some.inj hoc, Option.some.inj hom, c, hc, by rw [hq]; rfl⟩
    · rintro ⟨r, hr, hc1, hc2, c, hc, hsome⟩
      obtain ⟨o, ho, hids⟩ := bwd r hr c hc hsome
      refine ⟨o, ho, ?_, ?_⟩
      · rw [currencyOf, hids, lookupKey_idsOf t r _ hcuriv, hc1]
      · rw [measureOf, hids, lookupKey_idsOf t r _ hmeaiv, hc2]
  · intro cur hblank hmemc
    obtain ⟨r, hr, hc1, c, hc, hsome⟩ := (hlist cur).1 hmemc
    rw [hblank r hr hc1 c hc] at hsome
    cases hsome

/-- Witness for C5: in the sample table the legacy currency with only blank
cells is absent from the enumerated currency list. -/
theorem series_presence_witness :
    "원/독일마르크" ∉ currency_list (load_and_preprocess_data sample) :=
  (series_presence sample (by decide) (by decide) (by decide)).2.2 "원/독일마르크"
    (by decide)

/-- C6: for a non-empty filtered set, the "most recent" metric is the rate of
the last row, which — filtering preserving the loader's ascending-period
order — is a row of maximal period among the filtered rows; and the
minimum/maximum metrics are the arithmetic min and max of the filtered
rates. -/
theorem summary_metrics (t : RawTable) (selCur : String) (selMeas : List String)
    (hne : filteredObs (load_and_preprocess_data t) selCur selMeas ≠ []) :
    (∃ o, (filteredObs (load_and_preprocess_data t) selCur selMeas).getLast? = some o ∧
        recentRate (filteredObs (load_and_preprocess_data t) selCur selMeas) =
          some o.rate ∧
        ∀ x ∈ filteredObs (load_and_preprocess_data t) selCur selMeas,
          keyOf x ≤ keyOf o) ∧
    (∃ q, seriesMin (rates (filteredObs (load_and_preprocess_data t) selCur selMeas)) =
          some q ∧
        q ∈ rates (filteredObs (load_and_preprocess_data t) selCur selMeas) ∧
        ∀ y ∈ rates (filteredObs (load_and_preprocess_data t) selCur selMeas), q ≤ y) ∧
    (∃ q, seriesMax (rates (filteredObs (load_and_preprocess_data t) selCur selMeas)) =
          some q ∧
        q ∈ rates (filteredObs (load_and_preprocess_data t) selCur selMeas) ∧
        ∀ y ∈ rates (filteredObs (load_and_preprocess_data t) selCur selMeas), y ≤ q) := by
  have minlem : ∀ g : List Observation, g ≠ [] →
      ∃ q, seriesMin (rates g) = some q ∧ q ∈ rates g ∧ ∀ y ∈ rates g, q ≤ y := by
    intro g hg
    cases g with
    | nil => exact absurd rfl hg
    | cons a l =>
      obtain ⟨hmem, hle, hall⟩ := foldl_min_spec (rates l) a.rate
      refine ⟨(rates l).foldl min a.rate, rfl, ?_, ?_⟩
      · rcases hmem with h | h
        · rw [h]; exact List.mem_cons_self _ _
        · exact List.mem_cons_of_mem _ h
      · intro y hy
        rcases List.mem_cons.1 hy with rfl | hy
        · exact hle
        · exact hall y hy
  have maxlem : ∀ g : List Observation, g ≠ [] →
      ∃ q, seriesMax (rates g) = some q ∧ q ∈ rates g ∧ ∀ y ∈ rates g, y ≤ q := by
    intro g hg
    cases g with
    | nil => exact absurd rfl hg
    | cons a l =>
      obtain ⟨hmem, hle, hall⟩ := foldl_max_spec (rates l) a.rate
      refine ⟨(rates l).foldl max a.rate, rfl, ?_, ?_⟩
      · rcases hmem with h | h
        · rw [h]; exact List.mem_cons_self _ _
        · exact List.mem_cons_of_mem _ h
      · intro y hy
        rcases List.mem_cons.1 hy with rfl | hy
        · exact hle
        · exact hall y hy
  have hsorted : (filteredObs (load_and_preprocess_data t) selCur selMeas).Pairwise obsLe :=
    List.Pairwise.filter _ (load_sorted t)
  refine ⟨?_, minlem _ hne, maxlem _ hne⟩
  refine ⟨(filteredObs (load_and_preprocess_data t) selCur selMeas).getLast hne,
    List.getLast?_eq_getLast _ hne, ?_, pairwise_getLast_le hne hsorted⟩
  rw [recentRate, recentRow, List.getLast?_eq_getLast _ hne]
  rfl

/-- Witness for C6 at the spec's summary scenario: rates 1,200.50 / 1180.00 /
1250.75 over ascending periods 2024/01–2024/03 give most-recent 1250.75,
minimum 1180.00 and maximum 1250.75. -/
theorem summary_metrics_witness :
    (∃ o, (filteredObs (load_and_preprocess_data sample) "원/미국달러" []).getLast? =
          some o ∧
        recentRate (filteredObs (load_and_preprocess_data sample) "원/미국달러" []) =
          some o.rate ∧
        ∀ x ∈ filteredObs (load_and_preprocess_data sample) "원/미국달러" [],
          keyOf x ≤ keyOf o) ∧
    recentRate (filteredObs (load_and_preprocess_data sample) "원/미국달러" []) =
      some (1250.75 : ℚ) ∧
    seriesMin (rates (filteredObs (load_and_preprocess_data sample) "원/미국달러" [])) =
      some (1180 : ℚ) ∧
    seriesMax (rates (filteredObs (load_and_preprocess_data sample) "원/미국달러" [])) =
      some (1250.75 : ℚ) := by
  refine ⟨(summary_metrics sample "원/미국달러" [] (by decide)).1, ?_, ?_, ?_⟩ <;>
    with_unfolding_all rfl

/-- C2: for the series given by a raw row that is the unique row carrying its
id tuple, when every month-column header parses under `%Y/%m`, the loaded
table contains exactly one observation per month cell of that row that parses
as a number after separator stripping, and every observation of that series
pairs its month header (its period) with the parsed value of that row's cell
in that column. -/
theorem series_roundtrip (t : RawTable) (row : List String)
    (hmem : row ∈ t.rows)
    (huniq : t.rows.countP (fun r => decide (idsOf t r = idsOf t row)) = 1)
    (hdates : ∀ c ∈ date_cols t, (parseYM c).isSome) :
    ((load_and_preprocess_data t).countP (fun o => decide (o.ids = idsOf t row)) =
      (date_cols t).countP
        (fun c => (parseNumeric (stripCommas (cellOf t.columns row c))).isSome)) ∧
    (∀ o ∈ load_and_preprocess_data t, o.ids = idsOf t row →
        o.date ∈ date_cols t ∧
        parseNumeric (stripCommas (cellOf t.columns row o.date)) = some o.rate) := by
  have bool_eq : ∀ a b : Bool, (a = true ↔ b = true) → a = b := by decide
  have hfilter : t.rows.filter (fun r => decide (idsOf t r = idsOf t row)) = [row] := by
    have hlen : (t.rows.filter (fun r => decide (idsOf t r = idsOf t row))).length = 1 := by
      rw [← List.countP_eq_length_filter]
      exact huniq
    obtain ⟨x, hx⟩ := List.length_eq_one.1 hlen
    have hrmem : row ∈ t.rows.filter (fun r => decide (idsOf t r = idsOf t row)) :=
      List.mem_filter.2 ⟨hmem, by simp⟩
    rw [hx] at hrmem
    have hxr : row = x := List.mem_singleton.1 hrmem
    subst hxr
    exact hx
  constructor
  · have h1 : (load_and_preprocess_data t).countP
        (fun o => decide (o.ids = idsOf t row)) =
        ((melt t).filterMap cleanRow).countP (fun o => decide (o.ids = idsOf t row)) :=
      (load_perm t).countP_eq _
    have hpt : ∀ m : MeltRow,
        (((cleanRow m).map (fun o => decide (o.ids = idsOf t row))).getD false) =
        (decide (m.ids = idsOf t row) && (cleanRow m).isSome) := by
      intro m
      cases hc : cleanRow m with
      | none => simp
      | some o =>
        have hids : o.ids = m.ids := (cleanRow_eq_some.1 hc).2.2.1
        simp [hids]
    have key : ∀ c ∈ date_cols t,
        t.rows.countP
          ((fun m => decide (m.ids = idsOf t row) && (cleanRow m).isSome) ∘
            mkMeltRow t c) =
        (if (parseNumeric (stripCommas (cellOf t.columns row c))).isSome
          then 1 else 0) := by
      intro c hc
      have hswap : t.rows.countP
          ((fun m => decide (m.ids = idsOf t row) && (cleanRow m).isSome) ∘
            mkMeltRow t c) =
          t.rows.countP (fun r => (cleanRow (mkMeltRow t c r)).isSome &&
            decide (idsOf t r = idsOf t row)) := by
        refine List.countP_congr (fun r _ => ?_)
        simp only [Function.comp_apply, Bool.and_eq_true]
        exact ⟨fun ⟨h1, h2⟩ => ⟨h2, h1⟩, fun ⟨h1, h2⟩ => ⟨h2, h1⟩⟩
      rw [hswap, ← List.countP_filter, hfilter, List.countP_cons, List.countP_nil]
      have hval : (cleanRow (mkMeltRow t c row)).isSome =
          (parseNumeric (stripCommas (cellOf t.columns row c))).isSome := by
        refine bool_eq _ _ ?_
        rw [cleanRow_isSome]
        constructor
        · exact fun h => h.1
        · exact fun h => ⟨h, hdates c hc⟩
      rw [hval]
      cases (parseNumeric (stripCommas (cellOf t.columns row c))).isSome <;> simp
    rw [h1, countP_filterMap,
      List.countP_congr (fun m _ => by rw [hpt m] : ∀ m ∈ melt t, _),
      melt, countP_flatMap]
    have hmaps : (date_cols t).map
        (fun c => (t.rows.map (mkMeltRow t c)).countP
          (fun m => decide (m.ids = idsOf t row) && (cleanRow m).isSome)) =
        (date_cols t).map
          (fun c => if (parseNumeric (stripCommas (cellOf t.columns row c))).isSome
            then 1 else 0) := by
      refine List.map_congr_left (fun c hc => ?_)
      rw [List.countP_map]
      exact key c hc
    rw [hmaps, sum_map_ite_eq_countP]
  · intro o ho hid
    obtain ⟨m, hm, hclean⟩ := mem_load.1 ho
    obtain ⟨c, hc, r, hr, rfl⟩ := mem_melt.1 hm
    obtain ⟨hq, _, hids, hdate⟩ := cleanRow_eq_some.1 hclean
    have hrpid : idsOf t r = idsOf t row := by
      have : (mkMeltRow t c r).ids = idsOf t row := by rw [← hids, hid]
      exact this
    have hrmem : r ∈ t.rows.filter (fun r => decide (idsOf t r = idsOf t row)) :=
      List.mem_filter.2 ⟨hr, by simp [hrpid]⟩
    rw [hfilter] at hrmem
    have hrrow : r = row := List.mem_singleton.1 hrmem
    subst hrrow
    constructor
    · rw [hdate]
      exact hc
    · rw [hdate]
      exact hq

/-- Witness for C2 at the sample table's US-Dollar series: all three month
cells parse, and the witness hypotheses (membership, uniqueness of the id
tuple, valid month headers) hold by computation. -/
theorem series_roundtrip_witness :
    (load_and_preprocess_data sample).countP
      (fun o => decide (o.ids =
        idsOf sample ["원/미국달러", "평균", "원", "1,200.50", "1180.00", "1250.75"])) =
    (date_cols sample).countP
      (fun c => (parseNumeric (stripCommas (cellOf sample.columns
        ["원/미국달러", "평균", "원", "1,200.50", "1180.00", "1250.75"] c))).isSome) :=
  (series_roundtrip sample ["원/미국달러", "평균", "원", "1,200.50", "1180.00", "1250.75"]
    (by decide) (by decide) (by decide)).1

end ExchangeRates
